import Mathlib

/-!
Verification of the repoyear backend's repository-scanning core.

The development shallowly embeds the code of `backend/src/repos/scan.rs`,
`backend/src/repos/config.rs` and `backend/src/api/implementation.rs`.
Repositories are modelled as records of the libgit2 operations the scanner
invokes (`find_reference`, `revparse_single`, configuration lookup, remote
enumeration, revwalk iteration, commit lookup), each returning `Except` to
mirror `Result`; the only error distinction the source ever makes is
`ErrorCode::NotFound` versus everything else, which the model keeps.
-/

namespace RepoYear

/-- Error code attached to a libgit2 error. The source only ever distinguishes
`ErrorCode::NotFound` from every other code, so the model collapses the rest
into `other`. -/
inductive ErrorCode where
  | notFound
  | other
  deriving DecidableEq

/-- A libgit2 error (`git2::Error`), reduced to the code the source inspects. -/
structure GitError where
  code : ErrorCode
  deriving DecidableEq

/-- A commit identifier (`git2::Oid`). -/
abbrev Oid := Nat

/-- A git reference as the source uses it: only `symbolic_target()` is read. -/
structure GitReference where
  symbolicTarget : Option String
  deriving DecidableEq

/-- A commit as the source uses it: only `author().when().seconds()` is read. -/
structure GitCommit where
  authorWhenSeconds : Int
  deriving DecidableEq

/-- A remote as the source uses it: only `url()` is read (`none` models a
non-UTF-8 URL). -/
structure GitRemote where
  url : Option String
  deriving DecidableEq

/-- The repository configuration as the source uses it:
`config.get_string("init.defaultBranch")`. -/
structure GitConfig where
  getDefaultBranch : Except GitError String

/-- An open `git2::Repository`, modelled as the record of the operations
`scan.rs` performs on it. `remotes` yields the remote-name array
(`none` models a non-UTF-8 name, which `into_iter().flatten()` drops);
`revwalkSetup` covers `revwalk()` plus `set_sorting(Sort::TIME)`;
`walkFrom oid` is the sequence the time-sorted revwalk yields after
`push(oid)`. -/
structure Repository where
  findReference : String → Except GitError GitReference
  revparseSingle : String → Except GitError Oid
  config : Except GitError GitConfig
  revwalkSetup : Except GitError Unit
  pushResult : Oid → Except GitError Unit
  remotes : Except GitError (List (Option String))
  findRemote : String → Except GitError GitRemote
  walkFrom : Oid → List (Except GitError Oid)
  findCommit : Oid → Except GitError GitCommit

/-- Error produced by `scan`/`get_default_branch` (an `anyhow::Error` in the
source): either a propagated git error or the ad-hoc
`anyhow!("Could not find a default branch")`. -/
inductive ScanError where
  | git (e : GitError)
  | noDefaultBranch
  deriving DecidableEq

/-! String helpers mirroring the `str` operations the source calls. -/

/-- Split off everything before the first occurrence of `c`; `none` when `c`
does not occur. Building block for `splitn`. -/
def splitFirst (c : Char) : List Char → Option (List Char × List Char)
  | [] => none
  | x :: xs =>
      if x = c then some ([], xs)
      else (splitFirst c xs).map fun p => (x :: p.1, p.2)

/-- Rust `str::splitn(n, c)`: at most `n` pieces, the last piece keeping any
remaining separators. -/
def splitnChars : Nat → Char → List Char → List (List Char)
  | 0, _, _ => []
  | 1, _, l => [l]
  | n + 2, c, l =>
      match splitFirst c l with
      | none => [l]
      | some (pre, post) => pre :: splitnChars (n + 1) c post

/-- Whether `p` is an initial segment of `s` (character lists). -/
def charsStartWith : List Char → List Char → Bool
  | [], _ => true
  | _ :: _, [] => false
  | p :: ps, s :: ss => p = s && charsStartWith ps ss

/-- Rust `str::starts_with`: `s` starts with the pattern `pat`. -/
def strStartsWith (s pat : String) : Bool :=
  charsStartWith pat.data s.data

/-! Transcription of `backend/src/repos/scan.rs`. -/

/-- Transcription of `remote_head_to_local_branch` (scan.rs lines 104–127): read the symbolic
target of `refs/remotes/<origin>/HEAD`; when it starts with `refs/remotes/`,
take element 3 of `splitn(4, '/')` as the branch name. `NotFound` from
`find_reference` and every unparsable target come back as `none`. The
source's `assert!(iter.next().is_none())` cannot fire (`splitn(4, _)` yields
at most 4 items) and is omitted. -/
def remote_head_to_local_branch (repo : Repository) (origin : String) :
    Except GitError (Option String) :=
  match repo.findReference ("refs/remotes/" ++ origin ++ "/HEAD") with
  | .ok reference =>
      match reference.symbolicTarget with
      | some target =>
          if strStartsWith target "refs/remotes/" then
            match (splitnChars 4 '/' target.data).get? 3 with
            | some branch => .ok (some (String.mk branch))
            | none => .ok none
          else .ok none
      | none => .ok none
  | .error e => if e.code = .notFound then .ok none else .error e

/-- Transcription of `ref_to_oid` (scan.rs lines 135–141): `revparse_single`, with `NotFound`
mapped to `none`. -/
def ref_to_oid (repo : Repository) (name : String) :
    Except GitError (Option Oid) :=
  match repo.revparseSingle name with
  | .ok oid => .ok (some oid)
  | .error e => if e.code = .notFound then .ok none else .error e

/-- The `if let Some(branch) = ...? { if let Some(oid) = ref_to_oid(...)? ... }`
pattern of `get_default_branch`: resolve the branch name when one was
found, otherwise report no match. -/
def branch_step (repo : Repository) (branch? : Option String) :
    Except GitError (Option Oid) :=
  match branch? with
  | some branch => ref_to_oid repo branch
  | none => .ok none

/-- Steps 4–6 of `get_default_branch` (scan.rs lines 87–95): `refs/heads/main`,
then `refs/heads/master`, then `HEAD`, else the "Could not find a default
branch" error. -/
def default_branch_fallback (repo : Repository) : Except ScanError Oid :=
  match ref_to_oid repo "refs/heads/main" with
  | .error e => .error (.git e)
  | .ok (some oid) => .ok oid
  | .ok none =>
      match ref_to_oid repo "refs/heads/master" with
      | .error e => .error (.git e)
      | .ok (some oid) => .ok oid
      | .ok none =>
          match ref_to_oid repo "HEAD" with
          | .error e => .error (.git e)
          | .ok (some oid) => .ok oid
          | .ok none => .error .noDefaultBranch

/-- Transcription of `get_default_branch` (scan.rs lines 64–96): origin remote HEAD, upstream
remote HEAD, `init.defaultBranch` from the configuration, then the
main/master/HEAD fallbacks. -/
def get_default_branch (repo : Repository) : Except ScanError Oid :=
  match remote_head_to_local_branch repo "origin" with
  | .error e => .error (.git e)
  | .ok originBranch =>
      match branch_step repo originBranch with
      | .error e => .error (.git e)
      | .ok (some oid) => .ok oid
      | .ok none =>
          match remote_head_to_local_branch repo "upstream" with
          | .error e => .error (.git e)
          | .ok upstreamBranch =>
              match branch_step repo upstreamBranch with
              | .error e => .error (.git e)
              | .ok (some oid) => .ok oid
              | .ok none =>
                  match repo.config with
                  | .error e => .error (.git e)
                  | .ok cfg =>
                      match cfg.getDefaultBranch with
                      | .ok branch =>
                          (match ref_to_oid repo branch with
                           | .error e => .error (.git e)
                           | .ok (some oid) => .ok oid
                           | .ok none => default_branch_fallback repo)
                      | .error e =>
                          if e.code = .notFound then
                            default_branch_fallback repo
                          else .error (.git e)

/-- The remote loop of `scan` (scan.rs lines 26–37): walk the remote names in
order (skipping non-UTF-8 ones), look each remote up, and report whether a
URL starting with `git@github.com:` or `https://github.com/` was found.
A `find_remote` failure aborts with that error. -/
def checkRemotes (repo : Repository) :
    List (Option String) → Except GitError Bool
  | [] => .ok false
  | none :: rest => checkRemotes repo rest
  | some name :: rest =>
      match repo.findRemote name with
      | .error e => .error e
      | .ok remote =>
          match remote.url with
          | some url =>
              if strStartsWith url "git@github.com:" ||
                  strStartsWith url "https://github.com/" then
                .ok true
              else checkRemotes repo rest
          | none => checkRemotes repo rest

/-- The final `revwalk.map(...).collect()` of `scan` (scan.rs lines 39–45):
turn each yielded oid into its commit's author timestamp; the first error
aborts the collection. -/
def collectTimes (repo : Repository) :
    List (Except GitError Oid) → Except GitError (List Int)
  | [] => .ok []
  | .error e :: _ => .error e
  | .ok oid :: rest =>
      match repo.findCommit oid with
      | .error e => .error e
      | .ok commit =>
          (collectTimes repo rest).map fun times =>
            commit.authorWhenSeconds :: times

/-- Transcription of `scan` (scan.rs lines 18–46), starting from the opened repository
(`Repository::open` itself is outside the model): create the time-sorted
revwalk, resolve the default branch, push it, then check remotes for a
GitHub URL — returning empty when one is found — and otherwise collect the
author timestamps of the walked ancestry. -/
def scan (repo : Repository) : Except ScanError (List Int) :=
  match repo.revwalkSetup with
  | .error e => .error (.git e)
  | .ok _ =>
      match get_default_branch repo with
      | .error e => .error e
      | .ok oid =>
          match repo.pushResult oid with
          | .error e => .error (.git e)
          | .ok _ =>
              match repo.remotes with
              | .error e => .error (.git e)
              | .ok names =>
                  match checkRemotes repo names with
                  | .error e => .error (.git e)
                  | .ok true => .ok []
                  | .ok false =>
                      match collectTimes repo (repo.walkFrom oid) with
                      | .ok times => .ok times
                      | .error e => .error (.git e)

/-! Spec-side description of the default-branch decision chain (§4.3 of the
specification): an ordered list of steps, each returning "resolved" (stop),
"no match" (fall through) or a hard error (abort); an exhausted list fails
with the no-default-branch error. -/

/-- The specification's §4.3 chain runner, written from the spec's words. -/
def resolveChain : List (Except GitError (Option Oid)) → Except ScanError Oid
  | [] => .error .noDefaultBranch
  | s :: rest =>
      match s with
      | .error e => .error (.git e)
      | .ok (some oid) => .ok oid
      | .ok none => resolveChain rest

/-- Step 1/2 of the chain as one computation: symbolic remote HEAD of the
given remote, then resolution of the extracted branch name. -/
def chainRemoteStep (repo : Repository) (remote : String) :
    Except GitError (Option Oid) :=
  match remote_head_to_local_branch repo remote with
  | .error e => .error e
  | .ok b => branch_step repo b

/-- Step 3 of the chain as one computation: read `init.defaultBranch` from the
repository configuration (a missing key is a no-match) and resolve it. -/
def chainConfigStep (repo : Repository) : Except GitError (Option Oid) :=
  match repo.config with
  | .error e => .error e
  | .ok cfg =>
      match cfg.getDefaultBranch with
      | .ok branch => ref_to_oid repo branch
      | .error e => if e.code = .notFound then .ok none else .error e

/-- C2 (confirmed): default-branch resolution is exactly the ordered
first-match chain origin-HEAD, upstream-HEAD, `init.defaultBranch`,
`refs/heads/main`, `refs/heads/master`, `HEAD`; a not-found outcome at a step
falls through, any other error aborts immediately, and an exhausted chain
fails with the no-default-branch error. -/
theorem get_default_branch_eq_chain (repo : Repository) :
    get_default_branch repo = resolveChain
      [chainRemoteStep repo "origin",
       chainRemoteStep repo "upstream",
       chainConfigStep repo,
       ref_to_oid repo "refs/heads/main",
       ref_to_oid repo "refs/heads/master",
       ref_to_oid repo "HEAD"] := by
  have hfall : default_branch_fallback repo = resolveChain
      [ref_to_oid repo "refs/heads/main",
       ref_to_oid repo "refs/heads/master",
       ref_to_oid repo "HEAD"] := by
    simp only [default_branch_fallback, resolveChain]
  rcases h1 : remote_head_to_local_branch repo "origin" with e | b
  · simp only [get_default_branch, resolveChain, chainRemoteStep, h1]
  · rcases h2 : branch_step repo b with e | ob
    · simp only [get_default_branch, resolveChain, chainRemoteStep, h1, h2]
    · rcases ob with _ | oid
      · rcases h3 : remote_head_to_local_branch repo "upstream" with e | b'
        · simp only [get_default_branch, resolveChain, chainRemoteStep,
            h1, h2, h3]
        · rcases h4 : branch_step repo b' with e | ob'
          · simp only [get_default_branch, resolveChain, chainRemoteStep,
              h1, h2, h3, h4]
          · rcases ob' with _ | oid
            · rcases h5 : repo.config with e | cfg
              · simp only [get_default_branch, resolveChain, chainRemoteStep,
                  chainConfigStep, h1, h2, h3, h4, h5]
              · rcases h6 : cfg.getDefaultBranch with e | branch
                · by_cases hc : e.code = ErrorCode.notFound
                  · simp only [get_default_branch, resolveChain,
                      chainRemoteStep, chainConfigStep, h1, h2, h3, h4, h5,
                      h6, hc, if_true, eq_self_iff_true, hfall,
                      default_branch_fallback]
                  · simp only [get_default_branch, resolveChain,
                      chainRemoteStep, chainConfigStep, h1, h2, h3, h4, h5,
                      h6, if_neg hc]
                · rcases h7 : ref_to_oid repo branch with e | oo
                  · simp only [get_default_branch, resolveChain,
                      chainRemoteStep, chainConfigStep, h1, h2, h3, h4, h5,
                      h6, h7]
                  · rcases oo with _ | oid
                    · simp only [get_default_branch, resolveChain,
                        chainRemoteStep, chainConfigStep, h1, h2, h3, h4, h5,
                        h6, h7, hfall, default_branch_fallback]
                    · simp only [get_default_branch, resolveChain,
                        chainRemoteStep, chainConfigStep, h1, h2, h3, h4, h5,
                        h6, h7]
            · simp only [get_default_branch, resolveChain, chainRemoteStep,
                h1, h2, h3, h4]
      · simp only [get_default_branch, resolveChain, chainRemoteStep, h1, h2]

/-- C3 (confirmed): when origin's remote HEAD symbolically targets
`refs/remotes/origin/dev`, `dev` resolves to one commit and `main` to another,
the resolver returns `dev`'s tip commit and never `main`'s. -/
theorem default_branch_prefers_origin_head (repo : Repository)
    (devOid mainOid : Oid)
    (h1 : repo.findReference "refs/remotes/origin/HEAD" =
      .ok ⟨some "refs/remotes/origin/dev"⟩)
    (h2 : repo.revparseSingle "dev" = .ok devOid)
    (h3 : repo.revparseSingle "refs/heads/main" = .ok mainOid)
    (h4 : mainOid ≠ devOid) :
    get_default_branch repo = .ok devOid ∧
      get_default_branch repo ≠ .ok mainOid := by
  have hA : remote_head_to_local_branch repo "origin" = .ok (some "dev") := by
    simp only [remote_head_to_local_branch]
    rw [show ("refs/remotes/" ++ "origin" ++ "/HEAD" : String) =
      "refs/remotes/origin/HEAD" from rfl, h1]
    rfl
  have hB : get_default_branch repo = .ok devOid := by
    simp only [get_default_branch, hA, branch_step, ref_to_oid, h2]
  refine ⟨hB, fun hcon => h4 ?_⟩
  rw [hB] at hcon
  exact (Except.ok.inj hcon).symm

/-- Concrete repository for the C3 witness: origin's remote HEAD targets
`refs/remotes/origin/dev`; `dev` resolves to commit 1, `main` to commit 2. -/
def repoOriginDev : Repository where
  findReference := fun name =>
    if name = "refs/remotes/origin/HEAD" then
      .ok ⟨some "refs/remotes/origin/dev"⟩
    else .error ⟨.notFound⟩
  revparseSingle := fun name =>
    if name = "dev" then .ok 1
    else if name = "refs/heads/main" then .ok 2
    else .error ⟨.notFound⟩
  config := .ok ⟨.error ⟨.notFound⟩⟩
  revwalkSetup := .ok ()
  pushResult := fun _ => .ok ()
  remotes := .ok []
  findRemote := fun _ => .error ⟨.notFound⟩
  walkFrom := fun _ => []
  findCommit := fun _ => .error ⟨.notFound⟩

/-- Witness for C3 at `repoOriginDev`. -/
theorem default_branch_prefers_origin_head_witness :
    get_default_branch repoOriginDev = .ok 1 ∧
      get_default_branch repoOriginDev ≠ .ok 2 :=
  default_branch_prefers_origin_head repoOriginDev 1 2 (by rfl) (by rfl)
    (by rfl) (by decide)

/-- Concrete repository for C1: a GitHub `origin` remote is configured, but no
reference resolves, so default-branch resolution fails before the remote check
is ever reached. -/
def repoGithubUnresolvable : Repository where
  findReference := fun _ => .error ⟨.notFound⟩
  revparseSingle := fun _ => .error ⟨.notFound⟩
  config := .ok ⟨.error ⟨.notFound⟩⟩
  revwalkSetup := .ok ()
  pushResult := fun _ => .ok ()
  remotes := .ok [some "origin"]
  findRemote := fun _ => .ok ⟨some "https://github.com/foo/bar"⟩
  walkFrom := fun _ => []
  findCommit := fun _ => .error ⟨.notFound⟩

/-- C1 (counterexample): this repository has a configured remote whose URL
begins with `https://github.com/`, yet `scan` returns the no-default-branch
error rather than an empty sequence — the GitHub-remote check runs only after
the revwalk setup, default-branch resolution and push have all succeeded. -/
theorem scan_github_error_counterexample :
    repoGithubUnresolvable.remotes = .ok [some "origin"] ∧
    repoGithubUnresolvable.findRemote "origin" =
      .ok ⟨some "https://github.com/foo/bar"⟩ ∧
    strStartsWith "https://github.com/foo/bar" "https://github.com/" = true ∧
    scan repoGithubUnresolvable = .error .noDefaultBranch := by
  exact ⟨rfl, rfl, by decide, by rfl⟩

/-- C1 (amended, confirmed): a repository with a GitHub-form remote URL yields
an empty timestamp sequence provided every step `scan` performs before the
remote check succeeds: revwalk setup, default-branch resolution, pushing the
resolved commit, and remote enumeration up to the GitHub remote. -/
theorem scan_github_remote_empty (repo : Repository) (oid : Oid)
    (names : List (Option String))
    (h1 : repo.revwalkSetup = .ok ())
    (h2 : get_default_branch repo = .ok oid)
    (h3 : repo.pushResult oid = .ok ())
    (h4 : repo.remotes = .ok names)
    (h5 : checkRemotes repo names = .ok true) :
    scan repo = .ok [] := by
  simp only [scan, h1, h2, h3, h4, h5]

/-- Concrete repository for the C1 witness: a GitHub remote plus a resolvable
`refs/heads/main`; the revwalk would fail if it were ever consulted, showing
the GitHub short-circuit skips it. -/
def repoGithubResolvable : Repository where
  findReference := fun _ => .error ⟨.notFound⟩
  revparseSingle := fun name =>
    if name = "refs/heads/main" then .ok 7 else .error ⟨.notFound⟩
  config := .ok ⟨.error ⟨.notFound⟩⟩
  revwalkSetup := .ok ()
  pushResult := fun _ => .ok ()
  remotes := .ok [some "origin"]
  findRemote := fun _ => .ok ⟨some "git@github.com:foo/bar"⟩
  walkFrom := fun _ => [.error ⟨.other⟩]
  findCommit := fun _ => .error ⟨.notFound⟩

/-- Witness for the amended C1 at `repoGithubResolvable`. -/
theorem scan_github_remote_empty_witness :
    scan repoGithubResolvable = .ok [] :=
  scan_github_remote_empty repoGithubResolvable 7 [some "origin"] rfl
    (by rfl) rfl rfl (by rfl)

/-! Lemmas about the string helpers, used to settle C4. -/

/-- String append acts as list append on the underlying characters. -/
theorem str_data_append (s t : String) : (s ++ t).data = s.data ++ t.data :=
  rfl

/-- Strings with equal character lists are equal. -/
theorem str_ext {s t : String} (h : s.data = t.data) : s = t := by
  cases s; cases t; exact congrArg String.mk h

/-- The helper `splitFirst` finds the first separator occurrence. -/
theorem splitFirst_append (c : Char) (l r : List Char) (hc : c ∉ l) :
    splitFirst c (l ++ c :: r) = some (l, r) := by
  induction l with
  | nil => simp [splitFirst]
  | cons x xs ih =>
      have hx : ¬x = c := fun hxc => hc (hxc ▸ List.mem_cons_self x xs)
      have hxs : c ∉ xs := fun hm => hc (List.mem_cons_of_mem x hm)
      simp [splitFirst, hx, ih hxs]

/-- A successful `splitFirst` decomposes the list at the first separator. -/
theorem splitFirst_some_spec (c : Char) :
    ∀ l pre post : List Char, splitFirst c l = some (pre, post) →
      l = pre ++ c :: post ∧ c ∉ pre := by
  intro l
  induction l with
  | nil => intro pre post h; simp [splitFirst] at h
  | cons x xs ih =>
      intro pre post h
      by_cases hx : x = c
      · simp [splitFirst, hx] at h
        obtain ⟨hpre, hpost⟩ := h
        subst hpre; subst hpost
        simp [hx]
      · simp [splitFirst, hx] at h
        obtain ⟨pre', hsf, hpre⟩ := h
        obtain ⟨hl, hmem⟩ := ih pre' post hsf
        constructor
        · rw [← hpre, hl]
          simp
        · rw [← hpre]
          intro hm
          rcases List.mem_cons.mp hm with hcx | hcx
          · exact hx hcx.symm
          · exact hmem hcx

/-- A pattern is an initial segment of any of its extensions. -/
theorem charsStartWith_append (p r : List Char) :
    charsStartWith p (p ++ r) = true := by
  induction p with
  | nil => rfl
  | cons x xs ih => simp [charsStartWith, ih]

/-- The check `charsStartWith` characterises initial segments. -/
theorem charsStartWith_iff (p s : List Char) :
    charsStartWith p s = true ↔ ∃ r, s = p ++ r := by
  constructor
  · induction p generalizing s with
    | nil => intro _; exact ⟨s, rfl⟩
    | cons x xs ih =>
        intro h
        cases s with
        | nil => simp [charsStartWith] at h
        | cons y ys =>
            simp only [charsStartWith, Bool.and_eq_true, decide_eq_true_eq]
              at h
            obtain ⟨rest, hrest⟩ := ih ys h.2
            exact ⟨rest, by simp [h.1, hrest]⟩
  · rintro ⟨r, rfl⟩
    exact charsStartWith_append p r

/-- Applying `splitn(4, '/')` to a string starting with `refs/remotes/` peels off the
two fixed components. -/
theorem splitn4_refsRemotes (rest : List Char) :
    splitnChars 4 '/' ("refs/remotes/".data ++ rest) =
      "refs".data :: "remotes".data :: splitnChars 2 '/' rest := rfl

/-- Element 1 of a two-way split is everything after the first separator. -/
theorem splitn2_get1 (rest : List Char) :
    (splitnChars 2 '/' rest).get? 1 = (splitFirst '/' rest).map Prod.snd := by
  rcases h : splitFirst '/' rest with _ | ⟨pre, post⟩ <;>
    simp [splitnChars, h]

/-- Concrete repository for C4: origin's remote HEAD symbolically targets
`refs/remotes/upstream/dev` — a shape naming a different remote than the one
being queried. -/
def repoForeignTarget : Repository where
  findReference := fun name =>
    if name = "refs/remotes/origin/HEAD" then
      .ok ⟨some "refs/remotes/upstream/dev"⟩
    else .error ⟨.notFound⟩
  revparseSingle := fun _ => .error ⟨.notFound⟩
  config := .ok ⟨.error ⟨.notFound⟩⟩
  revwalkSetup := .ok ()
  pushResult := fun _ => .ok ()
  remotes := .ok []
  findRemote := fun _ => .error ⟨.notFound⟩
  walkFrom := fun _ => []
  findCommit := fun _ => .error ⟨.notFound⟩

/-- C4 (counterexample): a branch name is extracted from origin's HEAD target
`refs/remotes/upstream/dev`, although that target does not have the shape
`refs/remotes/origin/<branch>` (it does not even start with
`refs/remotes/origin/`); the claim's "only for shape
`refs/remotes/origin/<branch>`" is false. -/
theorem remote_head_foreign_shape_counterexample :
    remote_head_to_local_branch repoForeignTarget "origin" =
        .ok (some "dev") ∧
      strStartsWith "refs/remotes/upstream/dev" "refs/remotes/origin/" =
        false :=
  ⟨by rfl, by decide⟩

/-- Evaluation of `remote_head_to_local_branch` once the remote HEAD reference
is known to exist with a symbolic target. -/
theorem remote_head_eval (repo : Repository) (r target : String)
    (h : repo.findReference ("refs/remotes/" ++ r ++ "/HEAD") =
      .ok ⟨some target⟩) :
    remote_head_to_local_branch repo r =
      if strStartsWith target "refs/remotes/" then
        match (splitnChars 4 '/' target.data).get? 3 with
        | some branch => .ok (some (String.mk branch))
        | none => .ok none
      else .ok none := by
  simp only [remote_head_to_local_branch, h]

/-- C4 (amended, confirmed): given a symbolic target for the queried remote's
HEAD, a branch name is extracted exactly when the target has the shape
`refs/remotes/<remote>/<branch>` for some slash-free `<remote>` — not
necessarily the queried remote — and any other target shape is silently a
no-match, never an error. -/
theorem remote_head_extraction_shape (repo : Repository) (r target : String)
    (h : repo.findReference ("refs/remotes/" ++ r ++ "/HEAD") =
      .ok ⟨some target⟩) :
    (∀ rem branch : String, '/' ∉ rem.data →
        target = "refs/remotes/" ++ rem ++ "/" ++ branch →
        remote_head_to_local_branch repo r = .ok (some branch)) ∧
      ((∀ rem branch : String, '/' ∉ rem.data →
          target ≠ "refs/remotes/" ++ rem ++ "/" ++ branch) →
        remote_head_to_local_branch repo r = .ok none) := by
  constructor
  · rintro rem branch hrem rfl
    have hdata : ("refs/remotes/" ++ rem ++ "/" ++ branch : String).data =
        "refs/remotes/".data ++ (rem.data ++ '/' :: branch.data) := by
      simp [str_data_append, List.append_assoc]
    have hst :
        strStartsWith ("refs/remotes/" ++ rem ++ "/" ++ branch)
          "refs/remotes/" = true := by
      unfold strStartsWith
      rw [hdata]
      exact charsStartWith_append _ _
    have hget :
        (splitnChars 4 '/'
            ("refs/remotes/" ++ rem ++ "/" ++ branch : String).data).get? 3 =
          some branch.data := by
      rw [hdata, splitn4_refsRemotes]
      show (splitnChars 2 '/' (rem.data ++ '/' :: branch.data)).get? 1 =
        some branch.data
      rw [splitn2_get1, splitFirst_append '/' rem.data branch.data hrem]
      rfl
    rw [remote_head_eval repo r _ h, if_pos hst, hget]
  · intro hne
    rw [remote_head_eval repo r target h]
    by_cases hst : strStartsWith target "refs/remotes/" = true
    · obtain ⟨rest, hrest⟩ :=
        (charsStartWith_iff "refs/remotes/".data target.data).mp hst
      rcases hsf : splitFirst '/' rest with _ | ⟨pre, post⟩
      · have hget : (splitnChars 4 '/' target.data).get? 3 = none := by
          rw [hrest, splitn4_refsRemotes]
          show (splitnChars 2 '/' rest).get? 1 = none
          rw [splitn2_get1, hsf]
          rfl
        rw [if_pos hst, hget]
      · exfalso
        obtain ⟨hl, hmem⟩ := splitFirst_some_spec '/' rest pre post hsf
        refine hne (String.mk pre) (String.mk post) hmem (str_ext ?_)
        rw [hrest, hl]
        simp [str_data_append]
    · rw [if_neg hst]

/-- Witness for the amended C4 at `repoForeignTarget`: target
`refs/remotes/upstream/dev` decomposes as remote `upstream`, branch `dev`,
and the extraction returns `dev`. -/
theorem remote_head_extraction_shape_witness :
    ('/' ∉ "upstream".data ∧
      ("refs/remotes/upstream/dev" : String) =
        "refs/remotes/" ++ "upstream" ++ "/" ++ "dev") ∧
    remote_head_to_local_branch repoForeignTarget "origin" =
      .ok (some "dev") :=
  ⟨⟨by decide, by decide⟩,
    (remote_head_extraction_shape repoForeignTarget "origin"
        "refs/remotes/upstream/dev" (by rfl)).1
      "upstream" "dev" (by decide) (by decide)⟩

/-- When every walked entry is a commit that can be looked up, the collection
yields each commit's author timestamp, in walk order. -/
theorem collectTimes_map_ok (repo : Repository) (l : List Oid)
    (commits : Oid → GitCommit)
    (hc : ∀ o ∈ l, repo.findCommit o = .ok (commits o)) :
    collectTimes repo (l.map Except.ok) =
      .ok (l.map fun o => (commits o).authorWhenSeconds) := by
  induction l with
  | nil => rfl
  | cons o rest ih =>
      simp only [List.map_cons, collectTimes,
        hc o (List.mem_cons_self o rest)]
      rw [ih fun o' ho' => hc o' (List.mem_cons_of_mem o ho')]
      rfl

/-- C5 (confirmed): with no recognized hosting remote (and the steps before
the walk succeeding), `scan` performs the full ancestry walk from the resolved
default-branch commit in the library's time-sorted order: it returns exactly
the collected walk, and when every walk entry and commit lookup succeeds the
result is the author timestamp of every walked commit, in walk order. -/
theorem scan_ancestry_walk (repo : Repository) (oid : Oid)
    (names : List (Option String))
    (h1 : repo.revwalkSetup = .ok ())
    (h2 : get_default_branch repo = .ok oid)
    (h3 : repo.pushResult oid = .ok ())
    (h4 : repo.remotes = .ok names)
    (h5 : checkRemotes repo names = .ok false) :
    (∀ ts, collectTimes repo (repo.walkFrom oid) = .ok ts →
        scan repo = .ok ts) ∧
      (∀ e, collectTimes repo (repo.walkFrom oid) = .error e →
        scan repo = .error (.git e)) ∧
      (∀ (l : List Oid) (commits : Oid → GitCommit),
        repo.walkFrom oid = l.map Except.ok →
        (∀ o ∈ l, repo.findCommit o = .ok (commits o)) →
        scan repo = .ok (l.map fun o => (commits o).authorWhenSeconds)) := by
  refine ⟨?_, ?_, ?_⟩
  · intro ts hts
    simp only [scan, h1, h2, h3, h4, h5, hts]
  · intro e he
    simp only [scan, h1, h2, h3, h4, h5, he]
  · intro l commits hwalk hcl
    simp only [scan, h1, h2, h3, h4, h5, hwalk,
      collectTimes_map_ok repo l commits hcl]

/-- Concrete repository for the C5 witness: three commits at distinct times,
one non-GitHub remote, default branch resolved through `refs/heads/main`. -/
def repoThreeCommits : Repository where
  findReference := fun _ => .error ⟨.notFound⟩
  revparseSingle := fun name =>
    if name = "refs/heads/main" then .ok 10 else .error ⟨.notFound⟩
  config := .ok ⟨.error ⟨.notFound⟩⟩
  revwalkSetup := .ok ()
  pushResult := fun _ => .ok ()
  remotes := .ok [some "origin"]
  findRemote := fun _ => .ok ⟨some "ssh://example.org/repo"⟩
  walkFrom := fun _ => [.ok 3, .ok 2, .ok 1]
  findCommit := fun o => .ok ⟨100 * (o : Int)⟩

/-- Witness for C5 at `repoThreeCommits`: all three timestamps come back, in
the order of the time-sorted walk. -/
theorem scan_ancestry_walk_witness :
    scan repoThreeCommits = .ok [300, 200, 100] :=
  (scan_ancestry_walk repoThreeCommits 10 [some "origin"] rfl (by rfl) rfl
      rfl (by rfl)).2.2 [3, 2, 1] (fun o => ⟨100 * (o : Int)⟩) rfl
    fun _ _ => rfl

/-! Transcription of `backend/src/repos/config.rs`. Filesystem paths are
modelled component-wise, matching `std::path::Path` semantics for the
normalized paths the walker produces: `strip_prefix` compares whole
components, and displaying a path joins its components with `/` (with a
leading `/` when absolute). -/

/-- A filesystem path: absolute or not, plus the list of components. -/
structure FsPath where
  absolute : Bool
  components : List String
  deriving DecidableEq

/-- Rendering as in `Path::display`/`to_string_lossy` (the model has no non-UTF-8 paths, so
both render the same way): components joined by `/`, a leading `/` when
absolute. -/
def FsPath.render : FsPath → String
  | ⟨abs, comps⟩ =>
      (if abs then "/" else "") ++ String.intercalate "/" comps

/-- Component-wise prefix removal, the core of `Path::strip_prefix`. -/
def dropRoot : List String → List String → Option (List String)
  | [], ps => some ps
  | _ :: _, [] => none
  | r :: rs, p :: ps => if r = p then dropRoot rs ps else none

/-- Model of `Path::strip_prefix(root)`: succeeds when `root`'s components lead
`path`'s (and both are equally absolute), yielding the relative suffix. -/
def strip_root (root p : FsPath) : Option FsPath :=
  if root.absolute = p.absolute then
    (dropRoot root.components p.components).map fun rest => ⟨false, rest⟩
  else none

/-- Outcome of `get_name`: a derived name, or the
`panic!("{path:?} found under {root:?}, ...")` invariant violation. -/
inductive NameOutcome where
  | ok (name : String)
  | panicked
  deriving DecidableEq

/-- Transcription of `get_name` (config.rs lines 247–268): with `replace_root` set, strip
`root` from the path and concatenate `replace_root` directly with the
rendered suffix, panicking when the stripping fails; with it unset, render
the path verbatim. -/
def get_name (root : FsPath) (replace_root : Option String) (path : FsPath) :
    NameOutcome :=
  match replace_root with
  | some pre =>
      match strip_root root path with
      | some suffix => .ok (pre ++ suffix.render)
      | none => .panicked
  | none => .ok path.render

/-- C6 (confirmed): with `replace_root` set the name is `replace_root`
concatenated directly with the suffix left after stripping `root` (so root
`/a`, `replace_root = "X:"`, path `/a/b/c` gives `X:b/c`); a path that does
not have `root` as a prefix panics rather than erroring; with `replace_root`
unset the name is the path's own rendered form, verbatim. -/
theorem get_name_spec (root : FsPath) (rr : String) (p : FsPath) :
    (∀ suffix, strip_root root p = some suffix →
        get_name root (some rr) p = .ok (rr ++ suffix.render)) ∧
      (strip_root root p = none → get_name root (some rr) p = .panicked) ∧
      (get_name root none p = .ok p.render) ∧
      (get_name ⟨true, ["a"]⟩ (some "X:") ⟨true, ["a", "b", "c"]⟩ =
        .ok "X:b/c") := by
  refine ⟨?_, ?_, rfl, by rfl⟩
  · intro suffix hs
    simp only [get_name, hs]
  · intro hs
    simp only [get_name, hs]

/-- Witness for C6: root `/a`, `replace_root = "X:"`, path `/a/b/c`. -/
theorem get_name_spec_witness :
    strip_root ⟨true, ["a"]⟩ ⟨true, ["a", "b", "c"]⟩ =
        some ⟨false, ["b", "c"]⟩ ∧
      get_name ⟨true, ["a"]⟩ (some "X:") ⟨true, ["a", "b", "c"]⟩ =
        .ok ("X:" ++ FsPath.render ⟨false, ["b", "c"]⟩) ∧
      get_name ⟨true, ["a"]⟩ none ⟨true, ["a", "b", "c"]⟩ =
        .ok "/a/b/c" :=
  ⟨by decide,
    (get_name_spec ⟨true, ["a"]⟩ "X:" ⟨true, ["a", "b", "c"]⟩).1
      ⟨false, ["b", "c"]⟩ (by decide),
    by decide⟩

/-- Outcome of `Repository::open` on a directory the walker visits. -/
inductive OpenOutcome where
  | repository
  | notFound
  | otherError
  deriving DecidableEq

/-- A directory tree as the walker sees it: the directory's own path, what
opening it as a repository yields, and its child directories in walk order
(`walkdir` with `filter_entry(is_dir)` only ever yields directories). -/
inductive Dir where
  | node (path : FsPath) (outcome : OpenOutcome) (children : List Dir)

/-- The directory's own path. -/
def Dir.path : Dir → FsPath
  | .node p _ _ => p

/-- What opening the directory as a repository yields. -/
def Dir.outcome : Dir → OpenOutcome
  | .node _ o _ => o

/-- The child directories, in walk order. -/
def Dir.children : Dir → List Dir
  | .node _ _ c => c

/-- An item yielded by `TreeRepoIter::next`: a discovered repository
(identified by the path it was opened at — the associated name is
`get_name root replace_root path`), or an error item from a failed open. -/
inductive RepoIterItem where
  | ok (path : FsPath)
  | error (path : FsPath)
  deriving DecidableEq

mutual

/-- Transcription of `TreeRepoIter::next` (config.rs lines 246–289) composed with the
depth-first `walkdir` traversal, as the total sequence of yielded items: a
successful open yields the repository and `skip_current_dir` prevents any
descent; a `NotFound` open error yields nothing and the walk descends; any
other open error is yielded as an error item and the walk still descends. -/
def treeRepoIter : Dir → List RepoIterItem
  | .node path outcome children =>
      match outcome with
      | .repository => [.ok path]
      | .notFound => treeRepoIterList children
      | .otherError => .error path :: treeRepoIterList children

/-- The concatenated yields of a list of sibling directories. -/
def treeRepoIterList : List Dir → List RepoIterItem
  | [] => []
  | d :: rest => treeRepoIter d ++ treeRepoIterList rest

end

/-- Membership in a sibling list's yield comes from some sibling. -/
theorem mem_treeRepoIterList {item : RepoIterItem} {l : List Dir} (d : Dir)
    (hd : d ∈ l) (hi : item ∈ treeRepoIter d) :
    item ∈ treeRepoIterList l := by
  induction l with
  | nil => cases hd
  | cons x rest ih =>
      rcases List.mem_cons.mp hd with h | h
      · subst h
        exact List.mem_append.mpr (Or.inl hi)
      · exact List.mem_append.mpr (Or.inr (ih h))

/-- A directory that opens as a repository yields itself and nothing else. -/
theorem treeRepoIter_of_repository (d : Dir) (h : d.outcome = .repository) :
    treeRepoIter d = [.ok d.path] := by
  obtain ⟨path, outcome, children⟩ := d
  cases h
  rfl

/-- C7 (confirmed): a directory that opens as a repository is yielded as
exactly one discovery and its children are never walked, so no path other
than its own — in particular no nested repository — ever appears in its
yield. -/
theorem repo_dir_never_descended (d : Dir) (h : d.outcome = .repository) :
    treeRepoIter d = [.ok d.path] ∧
      ∀ p : FsPath, p ≠ d.path → RepoIterItem.ok p ∉ treeRepoIter d := by
  refine ⟨treeRepoIter_of_repository d h, ?_⟩
  intro p hp hmem
  rw [treeRepoIter_of_repository d h] at hmem
  exact hp (by injection List.mem_singleton.mp hmem)

/-- An outer repository directory with a nested repository below it. -/
def dirNested : Dir :=
  .node ⟨true, ["a"]⟩ .repository [.node ⟨true, ["a", "b"]⟩ .repository []]

/-- Witness for C7: an outer repository containing a nested repository yields
exactly the outer discovery. -/
theorem repo_dir_never_descended_witness :
    treeRepoIter dirNested = [.ok ⟨true, ["a"]⟩] ∧
      RepoIterItem.ok ⟨true, ["a", "b"]⟩ ∉ treeRepoIter dirNested :=
  ⟨(repo_dir_never_descended dirNested rfl).1,
    (repo_dir_never_descended dirNested rfl).2 ⟨true, ["a", "b"]⟩
      (by decide)⟩

/-- C10 (confirmed): a directory whose open fails with an error other than
not-found is yielded as an error item and the walk still descends into its
children, so a repository nested directly beneath it is still discovered. -/
theorem open_error_still_descends (d : Dir) (h : d.outcome = .otherError) :
    treeRepoIter d = .error d.path :: treeRepoIterList d.children ∧
      ∀ c ∈ d.children, c.outcome = .repository →
        RepoIterItem.ok c.path ∈ treeRepoIter d := by
  obtain ⟨path, outcome, children⟩ := d
  cases h
  refine ⟨rfl, ?_⟩
  intro c hc hrepo
  have hyield : RepoIterItem.ok c.path ∈ treeRepoIter c := by
    rw [treeRepoIter_of_repository c hrepo]
    exact List.mem_singleton.mpr rfl
  exact List.mem_cons_of_mem _ (mem_treeRepoIterList c hc hyield)

/-- A directory that fails to open with a hard error, with a repository
nested below it. -/
def dirOpenError : Dir :=
  .node ⟨true, ["x"]⟩ .otherError [.node ⟨true, ["x", "r"]⟩ .repository []]

/-- Witness for C10: a directory failing to open with a hard error yields the
error, then its nested repository. -/
theorem open_error_still_descends_witness :
    treeRepoIter dirOpenError =
      [.error ⟨true, ["x"]⟩, .ok ⟨true, ["x", "r"]⟩] ∧
      RepoIterItem.ok ⟨true, ["x", "r"]⟩ ∈ treeRepoIter dirOpenError :=
  ⟨by rfl,
    (open_error_still_descends dirOpenError rfl).2
      (.node ⟨true, ["x", "r"]⟩ .repository []) (by constructor) rfl⟩

/-! Transcription of `get_contributions`
(`backend/src/api/implementation.rs` lines 127–149). The aggregator is
generic in the repository-handle type `ρ` and the error type `ε`, and takes
the per-repository scan (`repos::scan_repo`) as a parameter — it only
threads each handle through to it. The iterator's items are the list the
configured `repo_iter` yields; the `HashMap` built by `collect()` is
modelled as the final lookup function; the log is modelled by its
warning count. -/

/-- The per-item pipeline
`result.map_err(...).and_then(|(name, repo)| Ok((name, scan_repo(&repo)?)))`:
a discovery error or a scan error passes through, a success pairs the name
with the scanned timestamps. -/
def process_item {ρ ε : Type} (scan_repo : ρ → Except ε (List Int)) :
    Except ε (String × ρ) → Except ε (String × List Int)
  | .error e => .error e
  | .ok (name, repo) => (scan_repo repo).map fun ts => (name, ts)

/-- Model of `HashMap` insertion: the new binding shadows any prior one. -/
def insertEntry (m : String → Option (List Int)) (kv : String × List Int) :
    String → Option (List Int) :=
  fun key => if key = kv.1 then some kv.2 else m key

/-- Model of `collect()` into a `HashMap`, rendered as the lookup function after
inserting the pairs in iterator order. -/
def collectMap (l : List (String × List Int)) : String → Option (List Int) :=
  l.foldl insertEntry fun _ => none

/-- Transcription of the `get_contributions` aggregation over the discovery iterator: the
resulting name-to-timestamps mapping, plus the number of per-item failures
(each logged as one warning by `inspect_err` and dropped by
`filter_map(...ok())`). -/
def get_contributions {ρ ε : Type} (scan_repo : ρ → Except ε (List Int))
    (items : List (Except ε (String × ρ))) :
    (String → Option (List Int)) × Nat :=
  (collectMap
      (items.filterMap fun it => (process_item scan_repo it).toOption),
    (items.filter fun it => !(process_item scan_repo it).isOk).length)

/-- The guard on `scan_config`: with no configuration, `get_contributions`
returns `HashMap::new()` without scanning. -/
def get_contributions_opt {ρ ε : Type} (scan_repo : ρ → Except ε (List Int)) :
    Option (List (Except ε (String × ρ))) →
      (String → Option (List Int)) × Nat
  | none => (fun _ => none, 0)
  | some items => get_contributions scan_repo items

/-- Last-insertion-wins lookup in an association list, the reference
semantics for `collectMap`. -/
def lookupLast : List (String × List Int) → String → Option (List Int)
  | [], _ => none
  | kv :: rest, key =>
      match lookupLast rest key with
      | some v => some v
      | none => if key = kv.1 then some kv.2 else none

/-- Folding insertions over an arbitrary initial map looks up the last
binding, falling back to the initial map. -/
theorem foldl_insertEntry (l : List (String × List Int))
    (m : String → Option (List Int)) (key : String) :
    (l.foldl insertEntry m) key =
      match lookupLast l key with
      | some v => some v
      | none => m key := by
  induction l generalizing m with
  | nil => rfl
  | cons kv rest ih =>
      show (rest.foldl insertEntry (insertEntry m kv)) key = _
      rw [ih, lookupLast]
      cases lookupLast rest key with
      | some v => rfl
      | none =>
          show insertEntry m kv key = _
          by_cases hk : key = kv.1 <;> simp [insertEntry, hk]

/-- The collected map is last-insertion-wins lookup. -/
theorem collectMap_lookupLast (l : List (String × List Int)) (key : String) :
    collectMap l key = lookupLast l key := by
  rw [collectMap, foldl_insertEntry]
  cases lookupLast l key <;> rfl

/-- A successful lookup comes from a binding in the list. -/
theorem lookupLast_mem {l : List (String × List Int)} {key : String}
    {v : List Int} (h : lookupLast l key = some v) : (key, v) ∈ l := by
  induction l with
  | nil => cases h
  | cons kv rest ih =>
      rw [lookupLast] at h
      rcases hr : lookupLast rest key with _ | v'
      · rw [hr] at h
        by_cases hk : key = kv.1
        · rw [if_pos hk] at h
          have hv : kv.2 = v := by injection h
          have hkv : (key, v) = kv := by rw [hk, ← hv]
          exact hkv ▸ List.mem_cons_self kv rest
        · rw [if_neg hk] at h
          cases h
      · rw [hr] at h
        have hv : v' = v := by injection h
        exact List.mem_cons_of_mem kv (ih (hv ▸ hr))

/-- A binding in the list makes the lookup succeed. -/
theorem lookupLast_isSome_of_mem {l : List (String × List Int)}
    {key : String} {v : List Int} (h : (key, v) ∈ l) :
    ∃ v', lookupLast l key = some v' := by
  induction l with
  | nil => cases h
  | cons kv rest ih =>
      rcases List.mem_cons.mp h with heq | hmem
      · rcases hr : lookupLast rest key with _ | v'
        · refine ⟨kv.2, ?_⟩
          rw [lookupLast, hr, if_pos (congrArg Prod.fst heq.symm ▸ rfl)]
        · exact ⟨v', by rw [lookupLast, hr]⟩
      · obtain ⟨v', hv'⟩ := ih hmem
        exact ⟨v', by rw [lookupLast, hv']⟩

/-- Lookup over an appended list prefers the later part. -/
theorem lookupLast_append (l₁ l₂ : List (String × List Int)) (key : String) :
    lookupLast (l₁ ++ l₂) key =
      match lookupLast l₂ key with
      | some v => some v
      | none => lookupLast l₁ key := by
  induction l₁ with
  | nil =>
      rw [List.nil_append]
      cases lookupLast l₂ key <;> rfl
  | cons kv rest ih =>
      show (match lookupLast (rest ++ l₂) key with
        | some v => some v
        | none => if key = kv.1 then some kv.2 else none) = _
      rw [ih]
      rw [show lookupLast (kv :: rest) key =
        match lookupLast rest key with
        | some v => some v
        | none => if key = kv.1 then some kv.2 else none from rfl]
      cases lookupLast l₂ key <;> cases lookupLast rest key <;> simp

/-- Lookup misses a list containing no binding for the key. -/
theorem lookupLast_eq_none {l : List (String × List Int)} {key : String}
    (h : ∀ kv ∈ l, kv.1 ≠ key) : lookupLast l key = none := by
  induction l with
  | nil => rfl
  | cons kv rest ih =>
      rw [lookupLast, ih fun kv' hm => h kv' (List.mem_cons_of_mem kv hm)]
      rw [if_neg fun hk => h kv (List.mem_cons_self kv rest) hk.symm]

/-- An `Except.toOption` value is `some` exactly on `ok`. -/
theorem except_toOption_eq_some {ε α : Type} {e : Except ε α} {x : α} :
    e.toOption = some x ↔ e = .ok x := by
  cases e <;> simp [Except.toOption]

/-- C8 (confirmed): the batch scan never fails because repositories did —
every binding in the result comes from a successfully processed item, every
successfully processed item leaves a binding under its name, the warning
count is exactly the number of failed items, and an empty discovery (or an
absent scan configuration) produces the empty mapping with no warnings. -/
theorem get_contributions_isolates {ρ ε : Type}
    (scan_repo : ρ → Except ε (List Int))
    (items : List (Except ε (String × ρ))) :
    (∀ name ts, (get_contributions scan_repo items).1 name = some ts →
        ∃ it ∈ items, process_item scan_repo it = .ok (name, ts)) ∧
      (∀ it ∈ items, ∀ name ts,
        process_item scan_repo it = .ok (name, ts) →
        ∃ ts2, (get_contributions scan_repo items).1 name = some ts2) ∧
      (get_contributions scan_repo items).2 =
        (items.filter fun it => !(process_item scan_repo it).isOk).length ∧
      get_contributions scan_repo ([] : List (Except ε (String × ρ))) =
        (fun _ => none, 0) ∧
      get_contributions_opt scan_repo none = (fun _ => none, 0) := by
  refine ⟨?_, ?_, rfl, rfl, rfl⟩
  · intro name ts h
    rw [show (get_contributions scan_repo items).1 =
      collectMap (items.filterMap fun it =>
        (process_item scan_repo it).toOption) from rfl,
      collectMap_lookupLast] at h
    obtain ⟨it, hit, hopt⟩ := List.mem_filterMap.mp (lookupLast_mem h)
    exact ⟨it, hit, except_toOption_eq_some.mp hopt⟩
  · intro it hit name ts h
    have hmem : (name, ts) ∈ items.filterMap fun it =>
        (process_item scan_repo it).toOption :=
      List.mem_filterMap.mpr ⟨it, hit, except_toOption_eq_some.mpr h⟩
    obtain ⟨v', hv'⟩ := lookupLast_isSome_of_mem hmem
    refine ⟨v', ?_⟩
    rw [show (get_contributions scan_repo items).1 =
      collectMap (items.filterMap fun it =>
        (process_item scan_repo it).toOption) from rfl,
      collectMap_lookupLast]
    exact hv'

/-- Per-repository scan used by the aggregator witnesses: handle 0 fails,
handle `n > 0` scans to the single timestamp `n`. -/
def scanByValue : Nat → Except Unit (List Int) :=
  fun n => if n = 0 then .error () else .ok [(n : Int)]

/-- Discovery items for the C8 witness: one success, one discovery error,
one item whose scan fails. -/
def itemsSample : List (Except Unit (String × Nat)) :=
  [.ok ("a", 1), .error (), .ok ("b", 0)]

/-- Witness for C8 at `scanByValue`/`itemsSample`: the successfully scanned
item ends up in the mapping. -/
theorem get_contributions_isolates_witness :
    (Except.ok ("a", (1 : Nat)) ∈ itemsSample ∧
        process_item scanByValue (.ok ("a", (1 : Nat))) = .ok ("a", [1])) ∧
      ∃ ts2, (get_contributions scanByValue itemsSample).1 "a" = some ts2 :=
  ⟨⟨by rw [itemsSample]; exact List.mem_cons_self _ _, by rfl⟩,
    (get_contributions_isolates scanByValue itemsSample).2.1
      (.ok ("a", 1)) (by rw [itemsSample]; exact List.mem_cons_self _ _)
      "a" [1] (by rfl)⟩

/-- C9 (confirmed): when two successfully scanned repositories share a name,
the mapping holds the last-discovered one's timestamps (bindings are a
function of the name, so there is exactly one entry per name), and the two
duplicate successes contribute no warning: the warning count equals that of
the surrounding items alone. -/
theorem get_contributions_duplicate_last_wins {ρ ε : Type}
    (scan_repo : ρ → Except ε (List Int))
    (pre mid post : List (Except ε (String × ρ)))
    (name : String) (r1 r2 : ρ) (ts1 ts2 : List Int)
    (h1 : scan_repo r1 = .ok ts1) (h2 : scan_repo r2 = .ok ts2)
    (hpost : ∀ it ∈ post, ∀ ts,
      process_item scan_repo it ≠ .ok (name, ts)) :
    (get_contributions scan_repo
        (pre ++ .ok (name, r1) :: mid ++ .ok (name, r2) :: post)).1 name =
      some ts2 ∧
    (get_contributions scan_repo
        (pre ++ .ok (name, r1) :: mid ++ .ok (name, r2) :: post)).2 =
      (get_contributions scan_repo (pre ++ mid ++ post)).2 := by
  have hp1 : process_item scan_repo (.ok (name, r1)) = .ok (name, ts1) := by
    simp [process_item, h1, Except.map]
  have hp2 : process_item scan_repo (.ok (name, r2)) = .ok (name, ts2) := by
    simp [process_item, h2, Except.map]
  have hpostNone :
      lookupLast (post.filterMap fun it =>
        (process_item scan_repo it).toOption) name = none := by
    refine lookupLast_eq_none fun kv hkv => ?_
    obtain ⟨it, hit, hopt⟩ := List.mem_filterMap.mp hkv
    intro hname
    have hpr := except_toOption_eq_some.mp hopt
    refine hpost it hit kv.2 ?_
    rw [hpr, ← hname]
  constructor
  · rw [show (get_contributions scan_repo
        (pre ++ .ok (name, r1) :: mid ++ .ok (name, r2) :: post)).1 =
      collectMap ((pre ++ .ok (name, r1) :: mid ++
        .ok (name, r2) :: post).filterMap fun it =>
          (process_item scan_repo it).toOption) from rfl,
      collectMap_lookupLast]
    rw [List.filterMap_append, List.filterMap_cons, hp2]
    rw [show Except.toOption (Except.ok (name, ts2) :
      Except ε (String × List Int)) = some (name, ts2) from rfl]
    rw [lookupLast_append]
    have : lookupLast ((name, ts2) ::
        post.filterMap fun it => (process_item scan_repo it).toOption)
          name = some ts2 := by
      rw [lookupLast, hpostNone, if_pos rfl]
    rw [this]
  · simp only [get_contributions, List.filter_append, List.filter_cons,
      hp1, hp2, List.length_append]
    simp [Except.isOk, Except.toBool]

/-- Witness for C9: two successful discoveries named `x` (handles 1 and 2,
scanning to `[1]` and `[2]`), nothing else; the mapping holds `[2]` and the
duplicate contributes no warning. -/
theorem get_contributions_duplicate_last_wins_witness :
    (get_contributions scanByValue
        (([] : List (Except Unit (String × Nat))) ++
          .ok ("x", 1) :: [] ++ .ok ("x", 2) :: [])).1 "x" = some [2] ∧
    (get_contributions scanByValue
        (([] : List (Except Unit (String × Nat))) ++
          .ok ("x", 1) :: [] ++ .ok ("x", 2) :: [])).2 =
      (get_contributions scanByValue
        (([] : List (Except Unit (String × Nat))) ++ [] ++ [])).2 :=
  get_contributions_duplicate_last_wins scanByValue [] [] [] "x" 1 2 [1] [2]
    (by rfl) (by rfl) fun _ h => nomatch h

end RepoYear
